import Mathlib

/-!
# minty (config/local.js): answer resolution and asset ingestion

A shallow embedding of `src/config/local.js`.

* JavaScript values and objects are explicit data (`JsVal`, `JsObj`); an
  object is the list of its own properties in insertion order, with
  `Object.prototype` behind it; `objectEntries` gives the enumeration order.
* The prompt objects of a spec map are mutated in place by the program, so
  they live in a heap (`Heap`) and the spec map holds references to them.
* The module-level mutable state (`_initialized`, `this.ipfs`) is passed
  explicitly (`IpfsState`).
* The collaborators the module calls (`fs.readFile`, the store client's
  `add`, the client constructor `ipfsClient`, the interactive session behind
  `inquirer.prompt`, the prompt library's handling of names that are property
  paths) are parameters; every call to them is recorded in the outcome of the
  function that makes it.
* A rejected promise / thrown exception is `Except.error`.
-/

namespace Minty

/-! ## JavaScript values and objects -/

/-- Values that CLI options, answers and option bags hold. Numbers are
restricted to integers; an object or a function is known by its identity only. -/
inductive JsVal where
  | undefined
  | null
  | bool (b : Bool)
  | num (n : Int)
  | str (s : String)
  | ref (id : String)
  deriving DecidableEq, Repr

/-- JavaScript truthiness (`if (v)`, `v || d`). -/
def JsVal.truthy : JsVal → Bool
  | .undefined => false
  | .null => false
  | .bool b => b
  | .num n => n != 0
  | .str s => s != ""
  | .ref _ => true

/-- String conversion, as in a template literal. -/
def JsVal.toStr : JsVal → String
  | .undefined => "undefined"
  | .null => "null"
  | .bool b => if b then "true" else "false"
  | .num n => toString n
  | .str s => s
  | .ref _ => "[object Object]"

/-- An object: its own properties, in the order in which they were created; its
prototype is `Object.prototype`. -/
abbrev JsObj := List (String × JsVal)

/-- Thrown values / rejection reasons. -/
abbrev JsError := String

/-- Own-property read: the first property named `k`, the default when there is none. -/
def getProp {α : Type} (dflt : α) : List (String × α) → String → α
  | [], _ => dflt
  | (k', v) :: rest, k => if k' = k then v else getProp dflt rest k

/-- Own-property test (`hasOwnProperty`). -/
def hasProp {α : Type} : List (String × α) → String → Bool
  | [], _ => false
  | (k', _) :: rest, k => if k' = k then true else hasProp rest k

/-- Own-property write: an existing property keeps its position, a new one is appended. -/
def setProp {α : Type} : List (String × α) → String → α → List (String × α)
  | [], k, v => [(k, v)]
  | (k', v') :: rest, k, v => if k' = k then (k, v) :: rest else (k', v') :: setProp rest k v

/-- The property names of `Object.prototype`, which every object inherits. -/
def objectPrototypeNames : List String :=
  ["constructor", "__defineGetter__", "__defineSetter__", "hasOwnProperty",
   "__lookupGetter__", "__lookupSetter__", "isPrototypeOf", "propertyIsEnumerable",
   "toString", "valueOf", "__proto__", "toLocaleString"]

/-- What a read of `k` finds on `Object.prototype`: the inherited member, or `undefined`. -/
def inherited (k : String) : JsVal :=
  if k ∈ objectPrototypeNames then .ref ("Object.prototype." ++ k) else .undefined

/-- Property read `o[k]`: the own property, else what the prototype holds. -/
def JsObj.get (o : JsObj) (k : String) : JsVal := getProp (inherited k) o k

/-- Assignment `o[k] = v`. Assigning to `__proto__` on an object without such an
own property runs the inherited setter and creates no property. -/
def JsObj.set (o : JsObj) (k : String) (v : JsVal) : JsObj :=
  if k = "__proto__" ∧ hasProp o k = false then o else setProp o k v

/-- Test `o.hasOwnProperty(k)`. -/
def JsObj.has (o : JsObj) (k : String) : Bool := hasProp o k

/-- Test `k in o`: own or inherited. -/
def JsObj.hasIn (o : JsObj) (k : String) : Bool := hasProp o k || decide (k ∈ objectPrototypeNames)

/-- The number written by a string of decimal digits. -/
def digitsValue (cs : List Char) : Nat :=
  cs.foldl (fun n c => 10 * n + (c.toNat - '0'.toNat)) 0

/-- Whether a property name is an array index: the canonical decimal form of a
number up to `2^32 - 2`. -/
def isArrayIndex (k : String) : Bool :=
  !k.data.isEmpty && k.data.all Char.isDigit
    && (k.data.length == 1 || k.data.head? != some '0')
    && decide (digitsValue k.data ≤ 4294967294)

/-- Numeric order on properties whose names are array indices. -/
def indexLe {α : Type} (a b : String × α) : Prop := digitsValue a.1.data ≤ digitsValue b.1.data

instance indexLeDecidable {α : Type} : DecidableRel (indexLe (α := α)) :=
  fun a b => Nat.decLe (digitsValue a.1.data) (digitsValue b.1.data)

/-- The order in which `Object.entries`, `for ... in` and object spread visit the
own properties: array indices in ascending numeric order first, then the other
names in the order of creation. -/
def objectEntries {α : Type} (o : List (String × α)) : List (String × α) :=
  (o.filter (fun e => isArrayIndex e.1)).insertionSort indexLe
    ++ o.filter (fun e => !isArrayIndex e.1)

/-! ## `path.basename` (POSIX) -/

/-- The characters of `path.basename(p)`: trailing separators are skipped, then
the characters back to the previous separator are kept. -/
def basenameChars (cs : List Char) : List Char :=
  ((cs.reverse.dropWhile (fun c => c == '/')).takeWhile (fun c => c != '/')).reverse

/-- The function `path.basename` on a string. -/
def basename (p : String) : String := String.mk (basenameChars p.data)

/-- The call `path.basename(v)` on an arbitrary value: a non-string argument throws. -/
def pathBasename : JsVal → Except JsError String
  | .str s => .ok (basename s)
  | _ => .error "TypeError [ERR_INVALID_ARG_TYPE]: The \"path\" argument must be of type string"

/-! ## The store client and the module state (lines 116-134) -/

/-- Byte payloads. -/
abbrev Bytes := List Nat

/-- The entry handed to the store: `{path, content}`. -/
structure Entry where
  path : String
  content : Bytes
  deriving DecidableEq, Repr

/-- The options argument of the store's `add`. -/
structure AddOptions where
  cidVersion : Nat
  hashAlg : String
  deriving DecidableEq, Repr

/-- The store client: its `add` capability, answering with a content identifier or failing. -/
structure IpfsClient where
  add : Entry → AddOptions → Except JsError String

/-- The constant `ipfsClientOptions.ipfsApiUrl`. -/
def ipfsApiUrl : String := "http://localhost:5001"

/-- The constant `ipfsAddOptions`. -/
def ipfsAddOptions : AddOptions := { cidVersion := 1, hashAlg := "sha2-256" }

/-- The module state: the flag `_initialized` and the handle `this.ipfs`. -/
structure IpfsState where
  initialized : Bool
  ipfs : Option IpfsClient

/-- The state when the module is loaded. -/
def IpfsState.initial : IpfsState := { initialized := false, ipfs := none }

/-- The function `init`: the new state and the URLs the client constructor was called with. -/
def init (ipfsClient : String → IpfsClient) (s : IpfsState) : IpfsState × List String :=
  if s.initialized then
    (s, [])
  else
    ({ initialized := true, ipfs := some (ipfsClient ipfsApiUrl) }, [ipfsApiUrl])

/-- Repeated calls to `init`: the final state and all constructor calls, in order. -/
def initTimes (ipfsClient : String → IpfsClient) : Nat → IpfsState → IpfsState × List String
  | 0, s => (s, [])
  | n + 1, s =>
    let r := init ipfsClient s
    let r2 := initTimes ipfsClient n r.1
    (r2.1, r.2 ++ r2.2)

/-! ## Asset ingestion (lines 136-148) -/

/-- The value an ingestion call resolves to: `undefined` or a record `{storePath, contentId}`. -/
inductive IngestValue where
  | undefined
  | record (storePath : String) (contentId : String)
  deriving DecidableEq, Repr

/-- What an ingestion call did: how its promise settled, the calls made to the
store's `add`, the value bound to `assetCid`, and the lines logged. -/
structure IngestOutcome where
  result : Except JsError IngestValue
  addCalls : List (Entry × AddOptions)
  assetCid : Option String
  log : List String

/-- The value `options.path || 'asset.bin'`. -/
def sourcePath (options : JsObj) : JsVal :=
  if (options.get "path").truthy then options.get "path" else .str "asset.bin"

/-- The logged line of `addIpfsByData`. -/
def logLine (filePath ipfsPath cid : String) : String :=
  "filePath " ++ filePath ++ " ipfsPath " ++ ipfsPath ++ " cid " ++ cid

/-- The function `addIpfsByData(content, options)`; `options = none` is a call
with `undefined`. -/
def addIpfsByData (s : IpfsState) (content : Bytes) (options : Option JsObj) : IngestOutcome :=
  match options with
  | none =>
    { result := .error "TypeError: Cannot read properties of undefined (reading 'path')",
      addCalls := [], assetCid := none, log := [] }
  | some opts =>
    let filePath := sourcePath opts
    match pathBasename filePath with
    | .error e => { result := .error e, addCalls := [], assetCid := none, log := [] }
    | .ok base =>
      let ipfsPath := "/nft/" ++ base
      match s.ipfs with
      | none =>
        { result := .error "TypeError: Cannot read properties of undefined (reading 'add')",
          addCalls := [], assetCid := none, log := [] }
      | some client =>
        let entry : Entry := { path := ipfsPath, content := content }
        match client.add entry ipfsAddOptions with
        | .error e =>
          { result := .error e, addCalls := [(entry, ipfsAddOptions)], assetCid := none, log := [] }
        | .ok cid =>
          { result := .ok .undefined, addCalls := [(entry, ipfsAddOptions)],
            assetCid := some cid, log := [logLine filePath.toStr ipfsPath cid] }

/-- The object `{...options, path: filename}`; spreading `undefined` adds nothing. -/
def withPath (options : Option JsObj) (filename : String) : JsObj :=
  setProp (objectEntries (options.getD [])) "path" (.str filename)

/-- The function `addIpfsByFile(filename, options)`. -/
def addIpfsByFile (readFile : String → Except JsError Bytes) (s : IpfsState)
    (filename : String) (options : Option JsObj) : IngestOutcome :=
  match readFile filename with
  | .error e => { result := .error e, addCalls := [], assetCid := none, log := [] }
  | .ok content => addIpfsByData s content (some (withPath options filename))

/-! ## Answer resolution (lines 41-53, 82-96) -/

/-- Property values of a prompt object (a FieldSpec): plain values, or the
closure created at line 86, represented by the variables it captures. -/
inductive PromptVal where
  | val (v : JsVal)
  | whenFn (cliOptions : JsObj) (name : String)
  deriving DecidableEq, Repr

/-- A prompt object: its own properties, in the order in which they were created. -/
abbrev Prompt := List (String × PromptVal)

/-- Read `p[k]` on a prompt object. -/
def Prompt.get (p : Prompt) (k : String) : PromptVal := getProp (PromptVal.val .undefined) p k

/-- Write `p[k] = v` on a prompt object. -/
def Prompt.set (p : Prompt) (k : String) (v : PromptVal) : Prompt := setProp p k v

/-- The identity of a prompt object. -/
abbrev Ref := Nat

/-- The prompt objects, by identity. -/
abbrev Heap := Ref → Prompt

/-- The heap after the object `r` has been replaced by `p`. -/
def Heap.write (h : Heap) (r : Ref) (p : Prompt) : Heap := fun r' => if r' = r then p else h r'

/-- A spec map: its own properties in the order of declaration, each holding a
reference to a prompt object. As in every object the property names are pairwise
distinct; two keys may hold the same object. -/
abbrev PromptMap := List (String × Ref)

/-- The body of the closure at lines 86-92 applied to the answers hash: the
value it returns and the answers hash after the call. -/
def whenBody (cliOptions : JsObj) (name : String) (answers : JsObj) : Bool × JsObj :=
  if (cliOptions.get name).truthy then
    (false, answers.set name (cliOptions.get name))
  else
    (true, answers)

/-- The interactive session: from the answers so far and the displayed question
(name and message), the answer given (a text, or another value for a question
of another type), or the error an aborted session raises. -/
abbrev Session := JsObj → String → PromptVal → Except JsError JsVal

/-- The prompt library's treatment of a name that is a property path (a name
with a `.` or a `[`): what lodash `get` finds on the answers hash under such a
name and what lodash `set` makes of the hash. -/
structure PathOps where
  get : JsObj → String → JsVal
  set : JsObj → String → JsVal → JsObj

/-- Whether lodash may read a name as a property path. -/
def isPathName (name : String) : Bool := name.data.any (fun c => c == '.' || c == '[')

/-- The test `answers[name] !== undefined` of the prompt library. -/
def answered (lib : PathOps) (answers : JsObj) (name : String) : Bool :=
  (if isPathName name then lib.get answers name else answers.get name) != .undefined

/-- The call `_.set(answers, name, value)` of the prompt library. A name that is
no path, or that the hash already has, is one key; lodash writes nothing under
the keys `__proto__`, `constructor` and `prototype`. -/
def storeAnswer (lib : PathOps) (answers : JsObj) (name : String) (value : JsVal) : JsObj :=
  if isPathName name && !answers.hasIn name then
    lib.set answers name value
  else if name = "__proto__" ∨ name = "constructor" ∨ name = "prototype" then
    answers
  else
    setProp answers name value

/-- What `inquirer.prompt` did: how its promise settled and the questions
actually put to the user (name and message), in the order asked. -/
structure PromptOutcome where
  result : Except JsError JsObj
  asked : List (String × PromptVal)

/-- Evaluation of a question's `when` property by the prompt library: a function
is called on the answers hash, the constant `false` skips the question, anything
else asks it. -/
def evalWhen (w : PromptVal) (answers : JsObj) : Bool × JsObj :=
  match w with
  | .whenFn cliOptions name => whenBody cliOptions name answers
  | .val (.bool false) => (false, answers)
  | _ => (true, answers)

/-- The library call `inquirer.prompt` (inquirer 7): the questions are taken in
order against one answers hash. A question whose name already has a value on the
hash is passed over unless it carries `askAnswered: true`; otherwise its `when`
is evaluated on the hash, and a question that is asked stores the answer under
its `name` with lodash `set`. A question whose `name` is not a string is
rejected (`promptForMissing` sets every name at line 85). -/
def runQuestions (lib : PathOps) (session : Session) : List Prompt → JsObj → PromptOutcome
  | [], answers => { result := .ok answers, asked := [] }
  | q :: rest, answers =>
    match q.get "name" with
    | .val (.str name) =>
      if q.get "askAnswered" != .val (.bool true) && answered lib answers name then
        runQuestions lib session rest answers
      else
        let w := evalWhen (q.get "when") answers
        if w.1 then
          match session w.2 name (q.get "message") with
          | .error e => { result := .error e, asked := [(name, q.get "message")] }
          | .ok value =>
            let r := runQuestions lib session rest (storeAnswer lib w.2 name value)
            { result := r.result, asked := (name, q.get "message") :: r.asked }
        else
          runQuestions lib session rest w.2
    | _ => { result := .error "Error: question without a name", asked := [] }

/-- The call `inquirer.prompt(questions)`: the answers hash starts empty. -/
def inquirerPrompt (lib : PathOps) (session : Session) (questions : List Prompt) :
    PromptOutcome :=
  runQuestions lib session questions []

/-- The statements `prompt.name = name` and `prompt.when = ...` of lines 85-86
on the entry `[name, prompt]`: the prompt object after them. -/
def annotate (cliOptions : JsObj) (entry : String × Prompt) : String × Prompt :=
  (entry.1, (entry.2.set "name" (.val (.str entry.1))).set "when" (.whenFn cliOptions entry.1))

/-- The loop of lines 84-94 over the entries: each iteration writes on the
object its entry refers to; the heap after the loop. -/
def promptLoop (cliOptions : JsObj) : List (String × Ref) → Heap → Heap
  | [], heap => heap
  | (name, r) :: rest, heap =>
    promptLoop cliOptions rest (heap.write r (annotate cliOptions (name, heap r)).2)

/-- What `promptForMissing` did: how its promise settled, the prompt objects
after the call, the argument of every `inquirer.prompt` call, and the questions
put to the user. -/
structure ResolveOutcome where
  result : Except JsError JsObj
  heap : Heap
  promptCalls : List (List Prompt)
  asked : List (String × PromptVal)

/-- The function `promptForMissing(cliOptions, prompts)`: the loop runs over
`Object.entries(prompts)`, the array `questions` holds the looped objects, as
they are when `inquirer.prompt` is called. -/
def promptForMissing (lib : PathOps) (session : Session) (cliOptions : JsObj)
    (prompts : PromptMap) (heap : Heap) : ResolveOutcome :=
  let entries := objectEntries prompts
  let heap1 := promptLoop cliOptions entries heap
  let questions := entries.map (fun e => heap1 e.2)
  let r := inquirerPrompt lib session questions
  { result := r.result, heap := heap1, promptCalls := [questions], asked := r.asked }

/-- The function `lodash.pick(object, keys)`, for keys that are no paths. -/
def pick (object : JsObj) (keys : List String) : JsObj :=
  keys.filterMap (fun k => if object.hasIn k then some (k, object.get k) else none)

/-- The function `lodash.assign(target, source)`: the target after the call. -/
def assign (target source : JsObj) : JsObj :=
  (objectEntries source).foldl (fun t kv => setProp t kv.1 kv.2) target

/-- The spec map of the object literal at lines 43-51: two keys, two objects. -/
def nftPrompts : PromptMap := [("name", 0), ("description", 1)]

/-- The two prompt objects of the object literal at lines 43-51. -/
def nftHeap : Heap := fun r =>
  match r with
  | 0 => [("message", .val (.str "Enter a name for your new NFT: "))]
  | 1 => [("message", .val (.str "Enter a description for your new NFT: "))]
  | _ => []

/-- What `createNFT` assembled: the local `answers` after line 53 (an error when
the resolution was rejected) and the questions put to the user. -/
structure MintOutcome where
  answers : Except JsError JsObj
  asked : List (String × PromptVal)

/-- The function `createNFT(imagePath, options)` up to line 53; the rest of the
body prints constants. -/
def createNFT (lib : PathOps) (session : Session) (imagePath : String) (options : JsObj) :
    MintOutcome :=
  let _ := imagePath
  let r := promptForMissing lib session options nftPrompts nftHeap
  match r.result with
  | .error e => { answers := .error e, asked := r.asked }
  | .ok answers => { answers := .ok (assign answers (pick options ["owner"])), asked := r.asked }

/-- The questions that the specification expects to be asked, over a list of
entries: the keys whose CLI value is absent or falsy, with the message of their
spec, in the order of the list. -/
def missingQuestions (cliOptions : JsObj) (entries : List (String × Prompt)) :
    List (String × PromptVal) :=
  (entries.filter (fun e => !(cliOptions.get e.1).truthy)).map (fun e => (e.1, e.2.get "message"))

/-- The entries of a spec map with the objects they refer to. -/
def resolveEntries (heap : Heap) (entries : List (String × Ref)) : List (String × Prompt) :=
  entries.map (fun e => (e.1, heap e.2))

/-- A name the prompt library and the language treat as one ordinary key: no
property path and no member of `Object.prototype`. -/
def ordinaryName (k : String) : Bool := !isPathName k && !decide (k ∈ objectPrototypeNames)

/-! ## Concrete collaborators used in the examples -/

/-- A store that answers every `add` with the same identifier. -/
def constStore (cid : String) : IpfsClient := { add := fun _ _ => .ok cid }

/-- A store whose identifier covers the entry's path (a directory-wrapped add). -/
def wrappingStore : IpfsClient := { add := fun e _ => .ok ("dir(" ++ e.path ++ ")") }

/-- A store that rejects every `add`. -/
def failingStore (e : JsError) : IpfsClient := { add := fun _ _ => .error e }

/-- A session that types the same text at every question. -/
def typing (text : String) : Session := fun _ _ _ => .ok (.str text)

/-- Path handling for runs in which no name is a path: every name is one key. -/
def keyOnly : PathOps := { get := fun o k => o.get k, set := fun o k v => setProp o k v }

/-- One prompt object with a message, whatever the reference. -/
def oneObject : Heap := fun _ => [("message", .val (.str "Value: "))]

/-- Two prompt objects with messages of their own. -/
def twoObjects : Heap := fun r =>
  match r with
  | 0 => [("message", .val (.str "First: "))]
  | _ => [("message", .val (.str "Second: "))]

/-! ## Properties of objects and of `path.basename` -/

theorem getProp_setProp_same {α : Type} (d : α) (o : List (String × α)) (k : String) (v : α) :
    getProp d (setProp o k v) k = v := by
  induction o with
  | nil => simp [setProp, getProp]
  | cons hd tl ih =>
    obtain ⟨k', v'⟩ := hd
    by_cases h : k' = k
    · simp [setProp, getProp, h]
    · simp [setProp, getProp, h, ih]

theorem getProp_setProp_ne {α : Type} (d : α) (o : List (String × α)) (k j : String) (v : α)
    (hjk : k ≠ j) : getProp d (setProp o k v) j = getProp d o j := by
  induction o with
  | nil => simp [setProp, getProp, hjk]
  | cons hd tl ih =>
    obtain ⟨k', v'⟩ := hd
    by_cases h : k' = k
    · subst h
      simp [setProp, getProp, hjk]
    · by_cases h2 : k' = j
      · subst h2
        simp [setProp, getProp, h]
      · simp [setProp, getProp, h, h2, ih]

theorem hasProp_setProp_same {α : Type} (o : List (String × α)) (k : String) (v : α) :
    hasProp (setProp o k v) k = true := by
  induction o with
  | nil => simp [setProp, hasProp]
  | cons hd tl ih =>
    obtain ⟨k', v'⟩ := hd
    by_cases h : k' = k
    · simp [setProp, hasProp, h]
    · simp [setProp, hasProp, h, ih]

theorem hasProp_setProp_ne {α : Type} (o : List (String × α)) (k j : String) (v : α)
    (hjk : k ≠ j) : hasProp (setProp o k v) j = hasProp o j := by
  induction o with
  | nil => simp [setProp, hasProp, hjk]
  | cons hd tl ih =>
    obtain ⟨k', v'⟩ := hd
    by_cases h : k' = k
    · subst h
      simp [setProp, hasProp, hjk]
    · by_cases h2 : k' = j
      · subst h2
        simp [setProp, hasProp, h]
      · simp [setProp, hasProp, h, h2, ih]

theorem basenameChars_no_sep (cs : List Char) : '/' ∉ basenameChars cs := by
  intro h
  unfold basenameChars at h
  rw [List.mem_reverse] at h
  have := List.mem_takeWhile_imp h
  simp at this

theorem basenameChars_trailing (cs : List Char) : basenameChars (cs ++ ['/']) = basenameChars cs := by
  simp [basenameChars, List.dropWhile]

theorem takeWhile_append_stop {α : Type} (p : α → Bool) (xs ys : List α) (y : α)
    (hxs : ∀ x ∈ xs, p x = true) (hy : p y = false) :
    (xs ++ y :: ys).takeWhile p = xs := by
  induction xs with
  | nil => simp [List.takeWhile, hy]
  | cons x xs ih =>
    have hx : p x = true := hxs x (List.mem_cons_self _ _)
    have ih2 := ih (fun z hz => hxs z (List.mem_cons_of_mem _ hz))
    simp [List.takeWhile, hx, ih2]

theorem dropWhile_append_none {α : Type} (p : α → Bool) (xs ys : List α) (hne : xs ≠ [])
    (hxs : ∀ x ∈ xs, p x = false) : (xs ++ ys).dropWhile p = xs ++ ys := by
  cases xs with
  | nil => exact absurd rfl hne
  | cons x xs =>
    have hx : p x = false := hxs x (List.mem_cons_self _ _)
    simp [List.dropWhile, hx]

theorem basenameChars_strip_dir (dir name : List Char) (hne : name ≠ []) (hname : '/' ∉ name) :
    basenameChars (dir ++ '/' :: name) = name := by
  have h1 : ∀ c ∈ name.reverse, (c == '/') = false := by
    intro c hc
    rw [List.mem_reverse] at hc
    simp only [beq_eq_false_iff_ne, ne_eq]
    rintro rfl
    exact hname hc
  have h2 : ∀ c ∈ name.reverse, (c != '/') = true := by
    intro c hc
    have := h1 c hc
    simp only [beq_eq_false_iff_ne, ne_eq] at this
    simpa using this
  have hrev : (dir ++ '/' :: name).reverse = name.reverse ++ '/' :: dir.reverse := by simp
  have hne2 : name.reverse ≠ [] := by simpa using hne
  unfold basenameChars
  rw [hrev, dropWhile_append_none _ _ _ hne2 h1, takeWhile_append_stop _ _ _ _ h2 (by simp),
    List.reverse_reverse]

theorem basename_data (p : String) : (basename p).data = basenameChars p.data := rfl

theorem sourcePath_of_str (opts : JsObj) (name : String) (h : opts.get "path" = .str name) :
    sourcePath opts = .str (if name = "" then "asset.bin" else name) := by
  unfold sourcePath
  rw [h]
  by_cases hn : name = "" <;> simp [JsVal.truthy, hn]

theorem sourcePath_of_absent (opts : JsObj) (h : opts.get "path" = .undefined) :
    sourcePath opts = .str "asset.bin" := by
  unfold sourcePath
  rw [h]
  simp [JsVal.truthy]

theorem withPath_get (options : Option JsObj) (filename : String) :
    (withPath options filename).get "path" = .str filename := by
  unfold withPath JsObj.get
  exact getProp_setProp_same _ _ _ _

theorem addIpfsByData_calls (s : IpfsState) (client : IpfsClient) (hs : s.ipfs = some client)
    (content : Bytes) (opts : JsObj) (fp : String) (hfp : sourcePath opts = .str fp) :
    (addIpfsByData s content (some opts)).addCalls =
      [({ path := "/nft/" ++ basename fp, content := content }, ipfsAddOptions)] := by
  unfold addIpfsByData
  simp only [hfp, pathBasename, hs]
  split <;> rfl

theorem addIpfsByData_ok (s : IpfsState) (client : IpfsClient) (hs : s.ipfs = some client)
    (content : Bytes) (opts : JsObj) (fp : String) (hfp : sourcePath opts = .str fp) (c : String)
    (hc : client.add { path := "/nft/" ++ basename fp, content := content } ipfsAddOptions = .ok c) :
    (addIpfsByData s content (some opts)).result = .ok .undefined ∧
    (addIpfsByData s content (some opts)).assetCid = some c ∧
    (addIpfsByData s content (some opts)).log = [logLine fp ("/nft/" ++ basename fp) c] := by
  unfold addIpfsByData
  simp [hfp, pathBasename, hs, hc, JsVal.toStr]

theorem addIpfsByData_store_error (s : IpfsState) (client : IpfsClient) (hs : s.ipfs = some client)
    (content : Bytes) (opts : JsObj) (fp : String) (hfp : sourcePath opts = .str fp) (e : JsError)
    (he : client.add { path := "/nft/" ++ basename fp, content := content } ipfsAddOptions
      = .error e) :
    (addIpfsByData s content (some opts)).result = .error e ∧
    (addIpfsByData s content (some opts)).assetCid = none ∧
    (addIpfsByData s content (some opts)).log = [] := by
  unfold addIpfsByData
  simp [hfp, pathBasename, hs, he]

theorem addIpfsByFile_of_read (readFile : String → Except JsError Bytes) (s : IpfsState)
    (filename : String) (options : Option JsObj) (content : Bytes)
    (hr : readFile filename = .ok content) :
    addIpfsByFile readFile s filename options
      = addIpfsByData s content (some (withPath options filename)) := by
  unfold addIpfsByFile
  rw [hr]

theorem initTimes_initialized (ipfsClient : String → IpfsClient) (n : Nat) (s : IpfsState)
    (h : s.initialized = true) : initTimes ipfsClient n s = (s, []) := by
  induction n with
  | zero => rfl
  | succ n ih => simp [initTimes, init, h, ih]

theorem init_sets_flag (ipfsClient : String → IpfsClient) (s : IpfsState) :
    (init ipfsClient s).1.initialized = true := by
  unfold init
  by_cases h : s.initialized = true <;> simp [h]

/-! ## Guarded initialisation -/

/-- C10: `init` is idempotent on the state (flag, handle). After one call the
flag is set; any number of further calls construct no client and leave the state
(flag and handle) as it is; over any number of calls from any state the
constructor runs at most once, and a flag that is set stays set. -/
theorem init_idempotent (ipfsClient : String → IpfsClient) (s : IpfsState) (n : Nat) :
    (init ipfsClient s).1.initialized = true ∧
    init ipfsClient (init ipfsClient s).1 = ((init ipfsClient s).1, []) ∧
    initTimes ipfsClient n (init ipfsClient s).1 = ((init ipfsClient s).1, []) ∧
    (initTimes ipfsClient n s).2.length ≤ 1 ∧
    (initTimes ipfsClient n s).1.initialized = (s.initialized || decide (0 < n)) := by
  have hflag := init_sets_flag ipfsClient s
  refine ⟨hflag, ?_, initTimes_initialized _ _ _ hflag, ?_, ?_⟩
  · have h1 := initTimes_initialized ipfsClient 1 _ hflag
    simpa [initTimes] using h1
  · cases n with
    | zero => simp [initTimes]
    | succ n =>
      simp only [initTimes, initTimes_initialized _ n _ hflag, List.append_nil]
      unfold init
      by_cases h : s.initialized = true <;> simp [h]
  · cases n with
    | zero => simp [initTimes]
    | succ n =>
      simp only [initTimes, initTimes_initialized _ n _ hflag]
      simp [hflag]

/-! ## Asset ingestion -/

/-- C2: with a store client in place, the entry submitted by `addIpfsByData` has
path `"/nft/" + basename(sourceName)`, the empty or absent source name being
replaced by `"asset.bin"` first; `addIpfsByFile` derives the path from the file
name for every options value; `basename` yields no separator, strips the
directory part and ignores a trailing separator; and the two examples of the
specification hold. -/
theorem store_path_derivation (s : IpfsState) (client : IpfsClient) (hs : s.ipfs = some client)
    (content : Bytes) :
    (∀ (opts : JsObj) (name : String), opts.get "path" = .str name →
      (addIpfsByData s content (some opts)).addCalls =
        [({ path := "/nft/" ++ basename (if name = "" then "asset.bin" else name),
            content := content }, ipfsAddOptions)]) ∧
    (∀ opts : JsObj, opts.get "path" = .undefined →
      (addIpfsByData s content (some opts)).addCalls =
        [({ path := "/nft/asset.bin", content := content }, ipfsAddOptions)]) ∧
    (∀ (readFile : String → Except JsError Bytes) (filename : String) (options : Option JsObj),
      readFile filename = .ok content →
      (addIpfsByFile readFile s filename options).addCalls =
        [({ path := "/nft/" ++ basename (if filename = "" then "asset.bin" else filename),
            content := content }, ipfsAddOptions)]) ∧
    (∀ p : String, '/' ∉ (basename p).data) ∧
    (∀ dir name : String, name ≠ "" → '/' ∉ name.data → basename (dir ++ "/" ++ name) = name) ∧
    (∀ p : String, basename (p ++ "/") = basename p) ∧
    (∀ (readFile : String → Except JsError Bytes) (options : Option JsObj),
      readFile "/a/b/cat.png" = .ok content →
      (addIpfsByFile readFile s "/a/b/cat.png" options).addCalls =
        [({ path := "/nft/cat.png", content := content }, ipfsAddOptions)]) ∧
    (addIpfsByData s content (some [("path", .str "")])).addCalls =
        [({ path := "/nft/asset.bin", content := content }, ipfsAddOptions)] := by
  have hdata : ∀ (opts : JsObj) (name : String), opts.get "path" = .str name →
      (addIpfsByData s content (some opts)).addCalls =
        [({ path := "/nft/" ++ basename (if name = "" then "asset.bin" else name),
            content := content }, ipfsAddOptions)] := fun opts name h =>
    addIpfsByData_calls s client hs content opts _ (sourcePath_of_str opts name h)
  have hfile : ∀ (readFile : String → Except JsError Bytes) (filename : String)
      (options : Option JsObj), readFile filename = .ok content →
      (addIpfsByFile readFile s filename options).addCalls =
        [({ path := "/nft/" ++ basename (if filename = "" then "asset.bin" else filename),
            content := content }, ipfsAddOptions)] := by
    intro readFile filename options hr
    rw [addIpfsByFile_of_read readFile s filename options content hr]
    exact hdata _ filename (withPath_get options filename)
  refine ⟨hdata, ?_, hfile, ?_, ?_, ?_, ?_, ?_⟩
  · intro opts h
    exact addIpfsByData_calls s client hs content opts _ (sourcePath_of_absent opts h)
  · intro p
    rw [basename_data]
    exact basenameChars_no_sep _
  · intro dir name hne hsep
    apply String.ext
    rw [basename_data]
    have hd : (dir ++ "/" ++ name).data = dir.data ++ '/' :: name.data := by
      simp [String.data_append]
    rw [hd]
    refine basenameChars_strip_dir _ _ ?_ hsep
    intro h
    exact hne (String.ext h)
  · intro p
    apply String.ext
    rw [basename_data, basename_data]
    have hd : (p ++ "/").data = p.data ++ ['/'] := by simp [String.data_append]
    rw [hd]
    exact basenameChars_trailing _
  · intro readFile options hr
    exact hfile readFile _ options hr
  · exact hdata _ "" rfl

/-- C2 at a concrete call: reading `/a/b/cat.png` and adding its bytes. -/
theorem store_path_derivation_witness :
    (addIpfsByFile (fun _ => .ok [1, 2]) ⟨true, some (constStore "bafy")⟩ "/a/b/cat.png"
        (some [("path", .str "other")])).addCalls =
      [({ path := "/nft/cat.png", content := [1, 2] }, ipfsAddOptions)] :=
  (store_path_derivation ⟨true, some (constStore "bafy")⟩ (constStore "bafy") rfl [1, 2]).2.2.2.2.2.2.1
    (fun _ => .ok [1, 2]) (some [("path", .str "other")]) rfl

/-- C3, as stated, fails: with a store that answers `"bafy"`, both ingestion
functions resolve to `undefined`, not to a record of path and identifier. -/
theorem ingestion_resolves_undefined :
    (addIpfsByData ⟨true, some (constStore "bafy")⟩ [1, 2, 3]
        (some [("path", .str "cat.png")])).result = .ok .undefined ∧
    (addIpfsByData ⟨true, some (constStore "bafy")⟩ [1, 2, 3]
        (some [("path", .str "cat.png")])).result ≠ .ok (.record "/nft/cat.png" "bafy") ∧
    (addIpfsByFile (fun _ => .ok [1, 2, 3]) ⟨true, some (constStore "bafy")⟩ "/a/b/cat.png"
        none).result ≠ .ok (.record "/nft/cat.png" "bafy") := by
  refine ⟨rfl, ?_, ?_⟩
  · intro h
    have h2 : (Except.ok IngestValue.undefined : Except JsError IngestValue)
        = .ok (.record "/nft/cat.png" "bafy") := h
    cases h2
  · intro h
    have h2 : (Except.ok IngestValue.undefined : Except JsError IngestValue)
        = .ok (.record "/nft/cat.png" "bafy") := h
    cases h2

/-- C3, amended: when the store's add succeeds with identifier `c`,
`addIpfsByData` has submitted exactly the entry with the derived `"/nft/..."`
path, has bound `c` itself to `assetCid`, has logged one line naming the source
path, the store path and `c`, and resolves to `undefined`; `addIpfsByFile`, once
the file is read, behaves as that very call of `addIpfsByData`. -/
theorem ingestion_result (s : IpfsState) (client : IpfsClient) (hs : s.ipfs = some client)
    (content : Bytes) (opts : JsObj) (fp : String) (hfp : sourcePath opts = .str fp) (c : String)
    (hc : client.add { path := "/nft/" ++ basename fp, content := content } ipfsAddOptions = .ok c) :
    (addIpfsByData s content (some opts)).result = .ok .undefined ∧
    (addIpfsByData s content (some opts)).assetCid = some c ∧
    (addIpfsByData s content (some opts)).log = [logLine fp ("/nft/" ++ basename fp) c] ∧
    (addIpfsByData s content (some opts)).addCalls =
      [({ path := "/nft/" ++ basename fp, content := content }, ipfsAddOptions)] ∧
    (∀ (readFile : String → Except JsError Bytes) (filename : String) (options : Option JsObj),
      readFile filename = .ok content →
      addIpfsByFile readFile s filename options
        = addIpfsByData s content (some (withPath options filename))) := by
  obtain ⟨h1, h2, h3⟩ := addIpfsByData_ok s client hs content opts fp hfp c hc
  exact ⟨h1, h2, h3, addIpfsByData_calls s client hs content opts fp hfp,
    fun readFile filename options hr => addIpfsByFile_of_read readFile s filename options content hr⟩

/-- C3 amended, at a concrete call. -/
theorem ingestion_result_witness :
    (addIpfsByData ⟨true, some (constStore "bafy")⟩ [1, 2, 3]
        (some [("path", .str "/a/b/cat.png")])).log
      = ["filePath /a/b/cat.png ipfsPath /nft/cat.png cid bafy"] :=
  (ingestion_result ⟨true, some (constStore "bafy")⟩ (constStore "bafy") rfl [1, 2, 3]
    [("path", .str "/a/b/cat.png")] "/a/b/cat.png" rfl "bafy" rfl).2.2.1

/-- C6, as stated, fails: with a store whose identifier covers the entry's path,
the same bytes added under `x.png` and under `y.png` get different identifiers. -/
theorem cid_depends_on_name :
    (addIpfsByData ⟨true, some wrappingStore⟩ [7] (some [("path", .str "x.png")])).assetCid
      ≠ (addIpfsByData ⟨true, some wrappingStore⟩ [7] (some [("path", .str "y.png")])).assetCid := by
  decide

/-- C6, amended: for a store whose `add` does not depend on the entry's path,
the identifier obtained for a payload is the same under any two source names,
and so is the way the call settles. Without that assumption the two calls still
submit the same content and the same options and differ in the path only. -/
theorem cid_name_independent (s : IpfsState) (client : IpfsClient) (hs : s.ipfs = some client)
    (hstore : ∀ (p q : String) (b : Bytes) (o : AddOptions),
      client.add { path := p, content := b } o = client.add { path := q, content := b } o)
    (content : Bytes) (opts1 opts2 : JsObj) (name1 name2 : String)
    (h1 : opts1.get "path" = .str name1) (h2 : opts2.get "path" = .str name2) :
    (addIpfsByData s content (some opts1)).assetCid
      = (addIpfsByData s content (some opts2)).assetCid ∧
    (addIpfsByData s content (some opts1)).result
      = (addIpfsByData s content (some opts2)).result := by
  have e1 := sourcePath_of_str opts1 name1 h1
  have e2 := sourcePath_of_str opts2 name2 h2
  unfold addIpfsByData
  simp only [e1, e2, pathBasename, hs]
  rw [hstore ("/nft/" ++ basename (if name1 = "" then "asset.bin" else name1))
    ("/nft/" ++ basename (if name2 = "" then "asset.bin" else name2)) content ipfsAddOptions]
  generalize client.add ⟨"/nft/" ++ basename (if name2 = "" then "asset.bin" else name2),
    content⟩ ipfsAddOptions = r
  cases r <;> exact ⟨rfl, rfl⟩

/-- C6 amended, at a concrete call. -/
theorem cid_name_independent_witness :
    (addIpfsByData ⟨true, some (constStore "bafy")⟩ [7] (some [("path", .str "x.png")])).assetCid
      = (addIpfsByData ⟨true, some (constStore "bafy")⟩ [7]
          (some [("path", .str "y.png")])).assetCid :=
  (cid_name_independent ⟨true, some (constStore "bafy")⟩ (constStore "bafy") rfl
    (fun _ _ _ _ => rfl) [7] [("path", .str "x.png")] [("path", .str "y.png")]
    "x.png" "y.png" rfl rfl).1

/-- C7: whatever the state, the payload and the caller's options, every call to
the store's add carries exactly the options `{cidVersion: 1, hashAlg: 'sha2-256'}`
and the payload itself; with a client in place and a usable source path the call
made is the single one with entry `{path: storePath, content}`. -/
theorem add_uses_fixed_options (s : IpfsState) (content : Bytes) (options : Option JsObj) :
    (∀ call ∈ (addIpfsByData s content options).addCalls,
      call.2 = { cidVersion := 1, hashAlg := "sha2-256" } ∧ call.1.content = content) ∧
    (∀ (client : IpfsClient) (opts : JsObj) (fp : String),
      s.ipfs = some client → options = some opts → sourcePath opts = .str fp →
      (addIpfsByData s content options).addCalls =
        [({ path := "/nft/" ++ basename fp, content := content },
          { cidVersion := 1, hashAlg := "sha2-256" })]) := by
  constructor
  · intro call hcall
    unfold addIpfsByData at hcall
    split at hcall
    · simp at hcall
    · simp only at hcall
      split at hcall
      · simp at hcall
      · split at hcall
        · simp at hcall
        · split at hcall <;>
          · simp only [List.mem_singleton] at hcall
            subst hcall
            exact ⟨rfl, rfl⟩
  · intro client opts fp hs ho hfp
    subst ho
    exact addIpfsByData_calls s client hs content opts fp hfp

/-- C7 at a concrete call whose options carry their own `cidVersion` and `hashAlg`. -/
theorem add_uses_fixed_options_witness :
    (addIpfsByData ⟨true, some (constStore "bafy")⟩ [9, 9]
        (some [("cidVersion", .num 0), ("hashAlg", .str "md5"), ("path", .str "a/cat.png")])).addCalls
      = [({ path := "/nft/cat.png", content := [9, 9] }, { cidVersion := 1, hashAlg := "sha2-256" })] :=
  (add_uses_fixed_options ⟨true, some (constStore "bafy")⟩ [9, 9]
    (some [("cidVersion", .num 0), ("hashAlg", .str "md5"), ("path", .str "a/cat.png")])).2
    (constStore "bafy") _ "a/cat.png" rfl rfl rfl

/-- C8: when reading the file fails, `addIpfsByFile` fails with that error and
makes no call to the store; when the store's add fails on the submitted entry,
`addIpfsByData` fails with the store's error, binds no identifier and logs
nothing. -/
theorem failure_propagation (s : IpfsState) (e : JsError) :
    (∀ (readFile : String → Except JsError Bytes) (filename : String) (options : Option JsObj),
      readFile filename = .error e →
      (addIpfsByFile readFile s filename options).result = .error e ∧
      (addIpfsByFile readFile s filename options).addCalls = [] ∧
      (addIpfsByFile readFile s filename options).log = []) ∧
    (∀ (client : IpfsClient) (content : Bytes) (opts : JsObj) (fp : String),
      s.ipfs = some client → sourcePath opts = .str fp →
      client.add { path := "/nft/" ++ basename fp, content := content } ipfsAddOptions = .error e →
      (addIpfsByData s content (some opts)).result = .error e ∧
      (addIpfsByData s content (some opts)).assetCid = none ∧
      (addIpfsByData s content (some opts)).log = []) := by
  constructor
  · intro readFile filename options hr
    unfold addIpfsByFile
    rw [hr]
    exact ⟨rfl, rfl, rfl⟩
  · intro client content opts fp hs hfp he
    exact addIpfsByData_store_error s client hs content opts fp hfp e he

/-- C8 at concrete calls: a missing file, and a store that is down. -/
theorem failure_propagation_witness :
    ((addIpfsByFile (fun _ => .error "ENOENT") ⟨true, some (constStore "bafy")⟩ "/no/such.png"
        none).result = .error "ENOENT" ∧
     (addIpfsByFile (fun _ => .error "ENOENT") ⟨true, some (constStore "bafy")⟩ "/no/such.png"
        none).addCalls = []) ∧
    (addIpfsByData ⟨true, some (failingStore "ENOENT")⟩ [1] (some [("path", .str "a.png")])).result
      = .error "ENOENT" :=
  ⟨(fun h => ⟨h.1, h.2.1⟩)
      ((failure_propagation ⟨true, some (constStore "bafy")⟩ "ENOENT").1
        (fun _ => .error "ENOENT") "/no/such.png" none rfl),
   ((failure_propagation ⟨true, some (failingStore "ENOENT")⟩ "ENOENT").2
      (failingStore "ENOENT") [1] [("path", .str "a.png")] "a.png" rfl rfl rfl).1⟩

/-! ## Enumeration order and the loop over the spec map -/

theorem objectEntries_perm {α : Type} (o : List (String × α)) : (objectEntries o).Perm o := by
  unfold objectEntries
  have h1 := List.perm_insertionSort (indexLe (α := α)) (o.filter (fun e => isArrayIndex e.1))
  exact (h1.append_right _).trans (List.filter_append_perm _ o)

theorem objectEntries_of_no_index {α : Type} (o : List (String × α))
    (h : ∀ k ∈ o.map Prod.fst, isArrayIndex k = false) : objectEntries o = o := by
  have h1 : o.filter (fun e => isArrayIndex e.1) = [] := by
    rw [List.filter_eq_nil_iff]
    intro e he
    have := h e.1 (List.mem_map_of_mem Prod.fst he)
    simp [this]
  have h2 : o.filter (fun e => !isArrayIndex e.1) = o := by
    rw [List.filter_eq_self]
    intro e he
    have := h e.1 (List.mem_map_of_mem Prod.fst he)
    simp [this]
  unfold objectEntries
  rw [h1, h2]
  rfl

theorem getProp_of_not_has {α : Type} (d : α) (o : List (String × α)) (k : String)
    (h : hasProp o k = false) : getProp d o k = d := by
  induction o with
  | nil => rfl
  | cons hd tl ih =>
    obtain ⟨k', v'⟩ := hd
    by_cases hk : k' = k
    · simp [hasProp, hk] at h
    · simp only [hasProp, hk, if_false] at h
      simp [getProp, hk, ih h]

theorem annotate_name (cliOptions : JsObj) (e : String × Prompt) :
    (annotate cliOptions e).2.get "name" = .val (.str e.1) := by
  unfold annotate Prompt.get Prompt.set
  rw [getProp_setProp_ne _ _ "when" "name" _ (by decide)]
  exact getProp_setProp_same _ _ _ _

theorem annotate_when (cliOptions : JsObj) (e : String × Prompt) :
    (annotate cliOptions e).2.get "when" = .whenFn cliOptions e.1 := by
  unfold annotate Prompt.get Prompt.set
  exact getProp_setProp_same _ _ _ _

theorem annotate_other (cliOptions : JsObj) (e : String × Prompt) (f : String)
    (h1 : f ≠ "name") (h2 : f ≠ "when") :
    (annotate cliOptions e).2.get f = e.2.get f := by
  unfold annotate Prompt.get Prompt.set
  rw [getProp_setProp_ne _ _ "when" f _ (Ne.symm h2),
    getProp_setProp_ne _ _ "name" f _ (Ne.symm h1)]

theorem annotate_has_other (cliOptions : JsObj) (e : String × Prompt) (f : String)
    (h1 : f ≠ "name") (h2 : f ≠ "when") :
    hasProp (annotate cliOptions e).2 f = hasProp e.2 f := by
  unfold annotate Prompt.set
  rw [hasProp_setProp_ne _ _ _ _ (Ne.symm h2), hasProp_setProp_ne _ _ _ _ (Ne.symm h1)]

theorem annotate_message (cliOptions : JsObj) (e : String × Prompt) :
    (annotate cliOptions e).2.get "message" = e.2.get "message" :=
  annotate_other cliOptions e "message" (by decide) (by decide)

/-- The loop leaves an object that no entry refers to as it was. -/
theorem promptLoop_untouched (cliOptions : JsObj) (es : List (String × Ref)) :
    ∀ (heap : Heap) (r : Ref), r ∉ es.map Prod.snd → promptLoop cliOptions es heap r = heap r := by
  induction es with
  | nil => intro heap r _; rfl
  | cons e rest ih =>
    intro heap r hr
    obtain ⟨name, r0⟩ := e
    simp only [List.map_cons, List.mem_cons, not_or] at hr
    rw [promptLoop, ih _ r hr.2]
    simp [Heap.write, hr.1]

/-- The loop leaves every property other than `name` and `when` as it was. -/
theorem promptLoop_frame (cliOptions : JsObj) (es : List (String × Ref)) :
    ∀ (heap : Heap) (r : Ref) (f : String), f ≠ "name" → f ≠ "when" →
      (promptLoop cliOptions es heap r).get f = (heap r).get f ∧
      hasProp (promptLoop cliOptions es heap r) f = hasProp (heap r) f := by
  induction es with
  | nil => intro heap r f _ _; exact ⟨rfl, rfl⟩
  | cons e rest ih =>
    intro heap r f h1 h2
    obtain ⟨name, r0⟩ := e
    rw [promptLoop]
    obtain ⟨ih1, ih2⟩ := ih (heap.write r0 (annotate cliOptions (name, heap r0)).2) r f h1 h2
    rw [ih1, ih2]
    by_cases hr : r = r0
    · subst hr
      simp only [Heap.write, if_true]
      exact ⟨annotate_other _ _ f h1 h2, annotate_has_other _ _ f h1 h2⟩
    · simp [Heap.write, hr]

/-- With distinct objects, the loop leaves each entry's object annotated with
the entry's own key. -/
theorem promptLoop_distinct (cliOptions : JsObj) (es : List (String × Ref)) :
    ∀ (heap : Heap), (es.map Prod.snd).Nodup → ∀ e ∈ es,
      promptLoop cliOptions es heap e.2 = (annotate cliOptions (e.1, heap e.2)).2 := by
  induction es with
  | nil => intro heap _ e he; simp at he
  | cons e0 rest ih =>
    intro heap hnd e he
    obtain ⟨name, r0⟩ := e0
    simp only [List.map_cons, List.nodup_cons] at hnd
    rw [promptLoop]
    simp only [List.mem_cons] at he
    rcases he with he | he
    · subst he
      rw [promptLoop_untouched _ _ _ _ hnd.1]
      simp [Heap.write]
    · have hne : e.2 ≠ r0 := by
        intro h
        exact hnd.1 (h ▸ List.mem_map_of_mem Prod.snd he)
      rw [ih _ hnd.2 e he]
      simp [Heap.write, hne]

/-- In general the loop leaves each entry's object annotated with the key of one
of the entries that refer to it. -/
theorem promptLoop_some_key (cliOptions : JsObj) (es : List (String × Ref)) :
    ∀ (heap : Heap) (r : Ref), r ∈ es.map Prod.snd →
      ∃ k, (k, r) ∈ es ∧
        (promptLoop cliOptions es heap r).get "name" = .val (.str k) ∧
        (promptLoop cliOptions es heap r).get "when" = .whenFn cliOptions k := by
  induction es with
  | nil => intro heap r hr; simp at hr
  | cons e0 rest ih =>
    intro heap r hr
    obtain ⟨name, r0⟩ := e0
    rw [promptLoop]
    by_cases hrest : r ∈ rest.map Prod.snd
    · obtain ⟨k, hk, h1, h2⟩ := ih (heap.write r0 (annotate cliOptions (name, heap r0)).2) r hrest
      exact ⟨k, List.mem_cons_of_mem _ hk, h1, h2⟩
    · simp only [List.map_cons, List.mem_cons] at hr
      rcases hr with hr | hr
      · subst hr
        rw [promptLoop_untouched _ _ _ _ hrest]
        refine ⟨name, List.mem_cons_self _ _, ?_, ?_⟩
        · simp only [Heap.write, if_true]
          exact annotate_name _ _
        · simp only [Heap.write, if_true]
          exact annotate_when _ _
      · exact absurd hr hrest

/-- With distinct objects, the array `questions` holds the entries' objects,
each annotated with its own key. -/
theorem questions_of_distinct (cliOptions : JsObj) (es : List (String × Ref)) (heap : Heap)
    (hnd : (es.map Prod.snd).Nodup) :
    es.map (fun e => promptLoop cliOptions es heap e.2)
      = ((resolveEntries heap es).map (annotate cliOptions)).map Prod.snd := by
  unfold resolveEntries
  rw [List.map_map, List.map_map]
  apply List.map_congr_left
  intro e he
  rw [promptLoop_distinct cliOptions es heap hnd e he]
  rfl

theorem resolveEntries_keys (heap : Heap) (es : List (String × Ref)) :
    (resolveEntries heap es).map Prod.fst = es.map Prod.fst := by
  unfold resolveEntries
  rw [List.map_map]
  rfl

/-! ## The prompt library on ordinary names -/

theorem ordinaryName_noPath (k : String) (h : ordinaryName k = true) : isPathName k = false := by
  unfold ordinaryName at h
  simp only [Bool.and_eq_true, Bool.not_eq_true'] at h
  exact h.1

theorem ordinaryName_notInherited (k : String) (h : ordinaryName k = true) :
    k ∉ objectPrototypeNames := by
  unfold ordinaryName at h
  simp only [Bool.and_eq_true, Bool.not_eq_true', decide_eq_false_iff_not] at h
  exact h.2

theorem ordinaryName_ne_proto (k : String) (h : ordinaryName k = true) : k ≠ "__proto__" := by
  intro hk
  exact ordinaryName_notInherited k h (hk ▸ (by decide))

theorem ordinaryName_ne_constructor (k : String) (h : ordinaryName k = true) :
    k ≠ "constructor" := by
  intro hk
  exact ordinaryName_notInherited k h (hk ▸ (by decide))

theorem inherited_ordinary (k : String) (h : ordinaryName k = true) : inherited k = .undefined := by
  unfold inherited
  rw [if_neg (ordinaryName_notInherited k h)]

theorem answered_fresh (lib : PathOps) (answers : JsObj) (k : String)
    (hord : ordinaryName k = true) (hfresh : answers.has k = false) :
    answered lib answers k = false := by
  unfold answered
  rw [ordinaryName_noPath k hord]
  simp only [Bool.false_eq_true, if_false]
  unfold JsObj.get
  rw [getProp_of_not_has _ _ _ hfresh, inherited_ordinary k hord]
  rfl

theorem set_ordinary (answers : JsObj) (k : String) (v : JsVal) (hord : ordinaryName k = true) :
    answers.set k v = setProp answers k v := by
  unfold JsObj.set
  rw [if_neg]
  intro h
  exact ordinaryName_ne_proto k hord h.1

theorem storeAnswer_ordinary (lib : PathOps) (answers : JsObj) (k : String) (v : JsVal)
    (hord : ordinaryName k = true) :
    storeAnswer lib answers k v = if k = "prototype" then answers else setProp answers k v := by
  unfold storeAnswer
  rw [ordinaryName_noPath k hord]
  simp [ordinaryName_ne_proto k hord, ordinaryName_ne_constructor k hord]

theorem storeAnswer_get_ne (lib : PathOps) (answers : JsObj) (k j : String) (v : JsVal)
    (hord : ordinaryName k = true) (hkj : k ≠ j) :
    (storeAnswer lib answers k v).get j = answers.get j := by
  rw [storeAnswer_ordinary lib answers k v hord]
  by_cases hp : k = "prototype"
  · rw [if_pos hp]
  · rw [if_neg hp]
    exact getProp_setProp_ne _ _ _ _ _ hkj

theorem storeAnswer_has_ne (lib : PathOps) (answers : JsObj) (k j : String) (v : JsVal)
    (hord : ordinaryName k = true) (hkj : k ≠ j) :
    (storeAnswer lib answers k v).has j = answers.has j := by
  rw [storeAnswer_ordinary lib answers k v hord]
  by_cases hp : k = "prototype"
  · rw [if_pos hp]
  · rw [if_neg hp]
    exact hasProp_setProp_ne _ _ _ _ hkj

/-- One step of `runQuestions` on an annotated prompt whose key has a truthy CLI value. -/
theorem runQuestions_supplied (lib : PathOps) (session : Session) (cliOptions : JsObj)
    (e : String × Prompt) (qs : List Prompt) (answers : JsObj)
    (hord : ordinaryName e.1 = true) (hfresh : answers.has e.1 = false)
    (h : (cliOptions.get e.1).truthy = true) :
    runQuestions lib session ((annotate cliOptions e).2 :: qs) answers
      = runQuestions lib session qs (setProp answers e.1 (cliOptions.get e.1)) := by
  rw [runQuestions, annotate_name, annotate_when]
  simp [evalWhen, whenBody, h, answered_fresh lib answers e.1 hord hfresh,
    set_ordinary answers e.1 _ hord]

/-- One step of `runQuestions` on an annotated prompt whose key has no truthy CLI value. -/
theorem runQuestions_missing (lib : PathOps) (session : Session) (cliOptions : JsObj)
    (e : String × Prompt) (qs : List Prompt) (answers : JsObj)
    (hord : ordinaryName e.1 = true) (hfresh : answers.has e.1 = false)
    (h : (cliOptions.get e.1).truthy = false) :
    runQuestions lib session ((annotate cliOptions e).2 :: qs) answers
      = match session answers e.1 (e.2.get "message") with
        | .error err => { result := .error err, asked := [(e.1, e.2.get "message")] }
        | .ok v =>
          { result := (runQuestions lib session qs (storeAnswer lib answers e.1 v)).result,
            asked := (e.1, e.2.get "message")
              :: (runQuestions lib session qs (storeAnswer lib answers e.1 v)).asked } := by
  rw [runQuestions, annotate_name, annotate_when, annotate_message]
  simp [evalWhen, whenBody, h, answered_fresh lib answers e.1 hord hfresh]

theorem questions_cons (cliOptions : JsObj) (e : String × Prompt) (rest : List (String × Prompt)) :
    ((e :: rest).map (annotate cliOptions)).map Prod.snd
      = (annotate cliOptions e).2 :: (rest.map (annotate cliOptions)).map Prod.snd := rfl

/-- The hypotheses of a run carried to the rest of the entries after one step
that wrote, at most, the first entry's key. -/
theorem fresh_rest (e : String × Prompt) (rest : List (String × Prompt)) (answers answers1 : JsObj)
    (hnd : ((e :: rest).map Prod.fst).Nodup)
    (hfresh : ∀ k ∈ (e :: rest).map Prod.fst, answers.has k = false)
    (hstep : ∀ j, e.1 ≠ j → answers1.has j = answers.has j) :
    ∀ k ∈ rest.map Prod.fst, answers1.has k = false := by
  intro k hk
  simp only [List.map_cons, List.nodup_cons] at hnd
  have hne : e.1 ≠ k := fun h => hnd.1 (h ▸ hk)
  rw [hstep k hne]
  exact hfresh k (List.mem_cons_of_mem _ hk)

theorem run_keeps_supplied (lib : PathOps) (session : Session) (cliOptions : JsObj)
    (S : List (String × Prompt)) :
    ∀ (answers A : JsObj), (S.map Prod.fst).Nodup →
      (∀ k ∈ S.map Prod.fst, ordinaryName k = true) →
      (∀ k ∈ S.map Prod.fst, answers.has k = false) →
      (runQuestions lib session ((S.map (annotate cliOptions)).map Prod.snd) answers).result
        = .ok A →
      ∀ k : String, (cliOptions.get k).truthy = true →
        (k ∈ S.map Prod.fst ∨ answers.get k = cliOptions.get k) → A.get k = cliOptions.get k := by
  induction S with
  | nil =>
    intro answers A _ _ _ h k _ hk
    simp only [List.map_nil, runQuestions] at h
    cases h
    rcases hk with hk | hk
    · simp at hk
    · exact hk
  | cons e rest ih =>
    intro answers A hnd hord hfresh h k hkt hk
    rw [questions_cons] at h
    have horde : ordinaryName e.1 = true := hord e.1 (by simp)
    have hfreshe : answers.has e.1 = false := hfresh e.1 (by simp)
    have hnd2 : (rest.map Prod.fst).Nodup := by
      simp only [List.map_cons, List.nodup_cons] at hnd
      exact hnd.2
    have hord2 : ∀ k ∈ rest.map Prod.fst, ordinaryName k = true :=
      fun k hk => hord k (List.mem_cons_of_mem _ hk)
    by_cases he : (cliOptions.get e.1).truthy = true
    · rw [runQuestions_supplied lib session cliOptions e _ answers horde hfreshe he] at h
      have hfresh2 := fresh_rest e rest answers (setProp answers e.1 (cliOptions.get e.1)) hnd
        hfresh (fun j hj => hasProp_setProp_ne _ _ _ _ hj)
      refine ih _ A hnd2 hord2 hfresh2 h k hkt ?_
      by_cases hke : e.1 = k
      · right
        subst hke
        exact getProp_setProp_same _ _ _ _
      · rcases hk with hk | hk
        · left
          simp only [List.map_cons, List.mem_cons] at hk
          rcases hk with hk | hk
          · exact absurd hk.symm hke
          · exact hk
        · right
          unfold JsObj.get
          rw [getProp_setProp_ne _ _ _ _ _ hke]
          exact hk
    · have he2 : (cliOptions.get e.1).truthy = false := by simpa using he
      rw [runQuestions_missing lib session cliOptions e _ answers horde hfreshe he2] at h
      cases hs : session answers e.1 (e.2.get "message") with
      | error err =>
        rw [hs] at h
        cases h
      | ok v =>
        rw [hs] at h
        have hke : e.1 ≠ k := by
          intro hek
          rw [hek, hkt] at he2
          cases he2
        have hfresh2 := fresh_rest e rest answers (storeAnswer lib answers e.1 v) hnd
          hfresh (fun j hj => storeAnswer_has_ne lib answers e.1 j v horde hj)
        refine ih _ A hnd2 hord2 hfresh2 h k hkt ?_
        rcases hk with hk | hk
        · left
          simp only [List.map_cons, List.mem_cons] at hk
          rcases hk with hk | hk
          · exact absurd hk.symm hke
          · exact hk
        · right
          rw [storeAnswer_get_ne lib answers e.1 k v horde hke]
          exact hk

theorem run_returns (lib : PathOps) (session : Session) (cliOptions : JsObj)
    (hsession : ∀ (a : JsObj) (n : String) (m : PromptVal), ∃ t, session a n m = .ok t)
    (S : List (String × Prompt)) :
    ∀ answers : JsObj, (S.map Prod.fst).Nodup →
      (∀ k ∈ S.map Prod.fst, ordinaryName k = true) →
      (∀ k ∈ S.map Prod.fst, answers.has k = false) →
      ∃ A, (runQuestions lib session ((S.map (annotate cliOptions)).map Prod.snd) answers).result
        = .ok A := by
  induction S with
  | nil =>
    intro answers _ _ _
    exact ⟨answers, rfl⟩
  | cons e rest ih =>
    intro answers hnd hord hfresh
    rw [questions_cons]
    have horde : ordinaryName e.1 = true := hord e.1 (by simp)
    have hfreshe : answers.has e.1 = false := hfresh e.1 (by simp)
    have hnd2 : (rest.map Prod.fst).Nodup := by
      simp only [List.map_cons, List.nodup_cons] at hnd
      exact hnd.2
    have hord2 : ∀ k ∈ rest.map Prod.fst, ordinaryName k = true :=
      fun k hk => hord k (List.mem_cons_of_mem _ hk)
    by_cases he : (cliOptions.get e.1).truthy = true
    · rw [runQuestions_supplied lib session cliOptions e _ answers horde hfreshe he]
      exact ih _ hnd2 hord2 (fresh_rest e rest answers _ hnd hfresh
        (fun j hj => hasProp_setProp_ne _ _ _ _ hj))
    · have he2 : (cliOptions.get e.1).truthy = false := by simpa using he
      rw [runQuestions_missing lib session cliOptions e _ answers horde hfreshe he2]
      obtain ⟨t, ht⟩ := hsession answers e.1 (e.2.get "message")
      rw [ht]
      exact ih _ hnd2 hord2 (fresh_rest e rest answers _ hnd hfresh
        (fun j hj => storeAnswer_has_ne lib answers e.1 j t horde hj))

theorem run_asked_initial (lib : PathOps) (session : Session) (cliOptions : JsObj)
    (S : List (String × Prompt)) :
    ∀ answers : JsObj, (S.map Prod.fst).Nodup →
      (∀ k ∈ S.map Prod.fst, ordinaryName k = true) →
      (∀ k ∈ S.map Prod.fst, answers.has k = false) →
      (runQuestions lib session ((S.map (annotate cliOptions)).map Prod.snd) answers).asked
        <+: missingQuestions cliOptions S := by
  induction S with
  | nil =>
    intro answers _ _ _
    simp [runQuestions, missingQuestions]
  | cons e rest ih =>
    intro answers hnd hord hfresh
    rw [questions_cons]
    have horde : ordinaryName e.1 = true := hord e.1 (by simp)
    have hfreshe : answers.has e.1 = false := hfresh e.1 (by simp)
    have hnd2 : (rest.map Prod.fst).Nodup := by
      simp only [List.map_cons, List.nodup_cons] at hnd
      exact hnd.2
    have hord2 : ∀ k ∈ rest.map Prod.fst, ordinaryName k = true :=
      fun k hk => hord k (List.mem_cons_of_mem _ hk)
    by_cases he : (cliOptions.get e.1).truthy = true
    · rw [runQuestions_supplied lib session cliOptions e _ answers horde hfreshe he]
      have hm : missingQuestions cliOptions (e :: rest) = missingQuestions cliOptions rest := by
        simp [missingQuestions, List.filter, he]
      rw [hm]
      exact ih _ hnd2 hord2 (fresh_rest e rest answers _ hnd hfresh
        (fun j hj => hasProp_setProp_ne _ _ _ _ hj))
    · have he2 : (cliOptions.get e.1).truthy = false := by simpa using he
      rw [runQuestions_missing lib session cliOptions e _ answers horde hfreshe he2]
      have hm : missingQuestions cliOptions (e :: rest)
          = (e.1, e.2.get "message") :: missingQuestions cliOptions rest := by
        simp [missingQuestions, List.filter, he2]
      rw [hm]
      cases hs : session answers e.1 (e.2.get "message") with
      | error err =>
        exact ⟨missingQuestions cliOptions rest, rfl⟩
      | ok v =>
        obtain ⟨t, ht⟩ := ih (storeAnswer lib answers e.1 v) hnd2 hord2
          (fresh_rest e rest answers _ hnd hfresh
            (fun j hj => storeAnswer_has_ne lib answers e.1 j v horde hj))
        exact ⟨t, by simp only [List.cons_append, ht]⟩

theorem run_asked_of_ok (lib : PathOps) (session : Session) (cliOptions : JsObj)
    (S : List (String × Prompt)) :
    ∀ (answers A : JsObj), (S.map Prod.fst).Nodup →
      (∀ k ∈ S.map Prod.fst, ordinaryName k = true) →
      (∀ k ∈ S.map Prod.fst, answers.has k = false) →
      (runQuestions lib session ((S.map (annotate cliOptions)).map Prod.snd) answers).result
        = .ok A →
      (runQuestions lib session ((S.map (annotate cliOptions)).map Prod.snd) answers).asked
        = missingQuestions cliOptions S := by
  induction S with
  | nil =>
    intro answers A _ _ _ _
    simp [runQuestions, missingQuestions]
  | cons e rest ih =>
    intro answers A hnd hord hfresh h
    rw [questions_cons] at h ⊢
    have horde : ordinaryName e.1 = true := hord e.1 (by simp)
    have hfreshe : answers.has e.1 = false := hfresh e.1 (by simp)
    have hnd2 : (rest.map Prod.fst).Nodup := by
      simp only [List.map_cons, List.nodup_cons] at hnd
      exact hnd.2
    have hord2 : ∀ k ∈ rest.map Prod.fst, ordinaryName k = true :=
      fun k hk => hord k (List.mem_cons_of_mem _ hk)
    by_cases he : (cliOptions.get e.1).truthy = true
    · rw [runQuestions_supplied lib session cliOptions e _ answers horde hfreshe he] at h ⊢
      have hm : missingQuestions cliOptions (e :: rest) = missingQuestions cliOptions rest := by
        simp [missingQuestions, List.filter, he]
      rw [hm]
      exact ih _ A hnd2 hord2 (fresh_rest e rest answers _ hnd hfresh
        (fun j hj => hasProp_setProp_ne _ _ _ _ hj)) h
    · have he2 : (cliOptions.get e.1).truthy = false := by simpa using he
      rw [runQuestions_missing lib session cliOptions e _ answers horde hfreshe he2] at h ⊢
      have hm : missingQuestions cliOptions (e :: rest)
          = (e.1, e.2.get "message") :: missingQuestions cliOptions rest := by
        simp [missingQuestions, List.filter, he2]
      rw [hm]
      cases hs : session answers e.1 (e.2.get "message") with
      | error err =>
        rw [hs] at h
        cases h
      | ok v =>
        rw [hs] at h
        simp only
        rw [ih _ A hnd2 hord2 (fresh_rest e rest answers _ hnd hfresh
          (fun j hj => storeAnswer_has_ne lib answers e.1 j v horde hj)) h]

theorem run_has_other (lib : PathOps) (session : Session) (cliOptions : JsObj)
    (S : List (String × Prompt)) :
    ∀ (answers A : JsObj), (S.map Prod.fst).Nodup →
      (∀ k ∈ S.map Prod.fst, ordinaryName k = true) →
      (∀ k ∈ S.map Prod.fst, answers.has k = false) →
      (runQuestions lib session ((S.map (annotate cliOptions)).map Prod.snd) answers).result
        = .ok A →
      ∀ j : String, j ∉ S.map Prod.fst → A.has j = answers.has j := by
  induction S with
  | nil =>
    intro answers A _ _ _ h j _
    simp only [List.map_nil, runQuestions] at h
    cases h
    rfl
  | cons e rest ih =>
    intro answers A hnd hord hfresh h j hj
    rw [questions_cons] at h
    have horde : ordinaryName e.1 = true := hord e.1 (by simp)
    have hfreshe : answers.has e.1 = false := hfresh e.1 (by simp)
    have hnd2 : (rest.map Prod.fst).Nodup := by
      simp only [List.map_cons, List.nodup_cons] at hnd
      exact hnd.2
    have hord2 : ∀ k ∈ rest.map Prod.fst, ordinaryName k = true :=
      fun k hk => hord k (List.mem_cons_of_mem _ hk)
    simp only [List.map_cons, List.mem_cons, not_or] at hj
    have hne : e.1 ≠ j := fun hej => hj.1 hej.symm
    by_cases he : (cliOptions.get e.1).truthy = true
    · rw [runQuestions_supplied lib session cliOptions e _ answers horde hfreshe he] at h
      rw [ih _ A hnd2 hord2 (fresh_rest e rest answers _ hnd hfresh
        (fun j hj => hasProp_setProp_ne _ _ _ _ hj)) h j hj.2]
      exact hasProp_setProp_ne _ _ _ _ hne
    · have he2 : (cliOptions.get e.1).truthy = false := by simpa using he
      rw [runQuestions_missing lib session cliOptions e _ answers horde hfreshe he2] at h
      cases hs : session answers e.1 (e.2.get "message") with
      | error err =>
        rw [hs] at h
        cases h
      | ok v =>
        rw [hs] at h
        rw [ih _ A hnd2 hord2 (fresh_rest e rest answers _ hnd hfresh
          (fun j hj => storeAnswer_has_ne lib answers e.1 j v horde hj)) h j hj.2]
        exact storeAnswer_has_ne lib answers e.1 j v horde hne

/-! ## Answer resolution -/

/-- With distinct objects, `promptForMissing` runs the prompt library on the
entries of the spec map in enumeration order, each annotated with its own key. -/
theorem promptForMissing_run (lib : PathOps) (session : Session) (cliOptions : JsObj)
    (S : PromptMap) (heap : Heap) (hobjs : (S.map Prod.snd).Nodup) :
    (promptForMissing lib session cliOptions S heap).result
      = (runQuestions lib session
          (((resolveEntries heap (objectEntries S)).map (annotate cliOptions)).map Prod.snd)
          []).result ∧
    (promptForMissing lib session cliOptions S heap).asked
      = (runQuestions lib session
          (((resolveEntries heap (objectEntries S)).map (annotate cliOptions)).map Prod.snd)
          []).asked ∧
    (promptForMissing lib session cliOptions S heap).promptCalls
      = [((resolveEntries heap (objectEntries S)).map (annotate cliOptions)).map Prod.snd] := by
  have hnd : ((objectEntries S).map Prod.snd).Nodup :=
    ((objectEntries_perm S).map Prod.snd).nodup_iff.mpr hobjs
  have hq := questions_of_distinct cliOptions (objectEntries S) heap hnd
  simp only [promptForMissing, inquirerPrompt]
  rw [hq]
  exact ⟨rfl, rfl, rfl⟩

theorem entries_keys_nodup (S : PromptMap) (heap : Heap) (hkeys : (S.map Prod.fst).Nodup) :
    ((resolveEntries heap (objectEntries S)).map Prod.fst).Nodup := by
  rw [resolveEntries_keys]
  exact ((objectEntries_perm S).map Prod.fst).nodup_iff.mpr hkeys

theorem entries_keys_mem (S : PromptMap) (heap : Heap) (k : String) :
    k ∈ (resolveEntries heap (objectEntries S)).map Prod.fst ↔ k ∈ S.map Prod.fst := by
  rw [resolveEntries_keys]
  exact ((objectEntries_perm S).map Prod.fst).mem_iff

theorem entries_keys_ordinary (S : PromptMap) (heap : Heap)
    (hord : ∀ k ∈ S.map Prod.fst, ordinaryName k = true) :
    ∀ k ∈ (resolveEntries heap (objectEntries S)).map Prod.fst, ordinaryName k = true :=
  fun k hk => hord k ((entries_keys_mem S heap k).mp hk)

theorem entries_of_index_sorted {α : Type} (o : List (String × α)) :
    (objectEntries o).filter (fun e => !isArrayIndex e.1)
      = o.filter (fun e => !isArrayIndex e.1) := by
  unfold objectEntries
  rw [List.filter_append]
  have h1 : ((o.filter (fun e => isArrayIndex e.1)).insertionSort indexLe).filter
      (fun e => !isArrayIndex e.1) = [] := by
    rw [List.filter_eq_nil_iff]
    intro e he
    have he2 := (List.perm_insertionSort (indexLe (α := α)) _).mem_iff.mp he
    have := (List.mem_filter.mp he2).2
    simp [this]
  rw [h1, List.filter_filter]
  simp

/-- C1, as stated, fails: when two keys of the spec map hold the same prompt
object, lines 85-86 leave it with the name and the predicate of the later key;
with `a` supplied on the command line as `X`, only `b` is asked and stored, and
the answer set has no `a`. -/
theorem shared_entry_loses_cli_value :
    (promptForMissing keyOnly (typing "typed") [("a", .str "X")] [("a", 0), ("b", 0)]
        oneObject).result = .ok [("b", .str "typed")] ∧
    (JsObj.get [("a", .str "X")] "a").truthy = true ∧
    JsObj.get [("b", .str "typed")] "a" ≠ JsObj.get [("a", .str "X")] "a" := by
  refine ⟨rfl, rfl, ?_⟩
  decide

/-- A key that names a member of `Object.prototype` is passed over by the prompt
library, which finds the inherited member on the empty answers hash: the
predicate is never run, so a value supplied for it is not copied, and a missing
one is not asked. -/
theorem inherited_name_is_passed_over :
    (promptForMissing keyOnly (typing "typed") [("constructor", .str "X")] [("constructor", 0)]
        oneObject).result = .ok [] ∧
    JsObj.get [] "constructor" ≠ .str "X" ∧
    (promptForMissing keyOnly (typing "typed") [] [("constructor", 0)] oneObject).asked = [] := by
  refine ⟨rfl, ?_, rfl⟩
  decide

/-- C1, amended: for a spec map (an object: `hkeys`) whose keys are ordinary
names (no property path, no member of `Object.prototype`: `hord`) and whose
entries are distinct objects (`hobjs`), every
key whose CLI value is truthy is mapped by the returned answer set to that very
CLI value, whatever the session answers; and when the session answers every
question, an answer set is returned. -/
theorem explicit_wins (lib : PathOps) (session : Session) (cliOptions : JsObj)
    (S : PromptMap) (heap : Heap)
    (hkeys : (S.map Prod.fst).Nodup) (hobjs : (S.map Prod.snd).Nodup)
    (hord : ∀ k ∈ S.map Prod.fst, ordinaryName k = true) :
    (∀ A : JsObj, (promptForMissing lib session cliOptions S heap).result = .ok A →
      ∀ k ∈ S.map Prod.fst, (cliOptions.get k).truthy = true → A.get k = cliOptions.get k) ∧
    ((∀ (a : JsObj) (n : String) (m : PromptVal), ∃ t, session a n m = .ok t) →
      ∃ A, (promptForMissing lib session cliOptions S heap).result = .ok A) := by
  obtain ⟨hres, _, _⟩ := promptForMissing_run lib session cliOptions S heap hobjs
  have h1 := entries_keys_nodup S heap hkeys
  have h2 := entries_keys_ordinary S heap hord
  have h3 : ∀ k ∈ (resolveEntries heap (objectEntries S)).map Prod.fst,
      JsObj.has [] k = false := fun _ _ => rfl
  constructor
  · intro A h k hk hkt
    rw [hres] at h
    exact run_keeps_supplied lib session cliOptions _ [] A h1 h2 h3 h k hkt
      (Or.inl ((entries_keys_mem S heap k).mpr hk))
  · intro hsession
    rw [hres]
    exact run_returns lib session cliOptions hsession _ [] h1 h2 h3

/-- C1 amended, at a concrete resolution: the name comes from the command line,
the description is typed. -/
theorem explicit_wins_witness :
    (promptForMissing keyOnly (typing "typed") [("name", .str "Moon")] nftPrompts nftHeap).result
        = .ok [("name", .str "Moon"), ("description", .str "typed")] ∧
    JsObj.get [("name", .str "Moon"), ("description", .str "typed")] "name" = .str "Moon" :=
  ⟨rfl, (explicit_wins keyOnly (typing "typed") [("name", .str "Moon")] nftPrompts nftHeap
    (by decide) (by decide) (by decide)).1
    [("name", .str "Moon"), ("description", .str "typed")] rfl "name" (by decide) rfl⟩

/-- C5, as stated, fails: with the keys declared in the order `b`, `1` and
nothing supplied, the question for `1` is asked before the one for `b`. -/
theorem index_keys_asked_first :
    (promptForMissing keyOnly (typing "typed") [] [("b", 0), ("1", 1)] twoObjects).asked
      = [("1", .val (.str "Second: ")), ("b", .val (.str "First: "))] ∧
    (promptForMissing keyOnly (typing "typed") [] [("b", 0), ("1", 1)] twoObjects).asked.map
        Prod.fst ≠ List.map Prod.fst [("b", 0), ("1", 1)] := by
  constructor
  · rfl
  · decide

/-- C5, amended: for a spec map (an object: `hkeys`) whose keys are ordinary
names (no property path, no member of `Object.prototype`: `hord`) and whose
entries are distinct objects (`hobjs`), `promptForMissing` makes a single `inquirer.prompt` call, whose argument holds
one question per spec key in the `Object.entries` order of the spec map: array
indices first, the other keys in declaration order, so the declaration order
itself when no key is an array index. A question's `when` returns true exactly
when the CLI value of its key is absent or falsy; the questions put to the user
are always an initial part of the missing keys, each with its spec's message and
in that order, and they are all of them whenever the call returns, which it does
when the session answers every question. -/
theorem prompts_only_missing (lib : PathOps) (session : Session) (cliOptions : JsObj)
    (S : PromptMap) (heap : Heap)
    (hkeys : (S.map Prod.fst).Nodup) (hobjs : (S.map Prod.snd).Nodup)
    (hord : ∀ k ∈ S.map Prod.fst, ordinaryName k = true) :
    (promptForMissing lib session cliOptions S heap).promptCalls.length = 1 ∧
    (promptForMissing lib session cliOptions S heap).promptCalls.map
        (fun qs => qs.map (fun q => (q.get "name", q.get "message")))
      = [(objectEntries S).map (fun e => (PromptVal.val (.str e.1), (heap e.2).get "message"))] ∧
    (∀ e ∈ S, ∀ answers : JsObj,
      (evalWhen (((promptForMissing lib session cliOptions S heap).heap e.2).get "when") answers).1
        = !(cliOptions.get e.1).truthy) ∧
    (promptForMissing lib session cliOptions S heap).asked
      <+: missingQuestions cliOptions (resolveEntries heap (objectEntries S)) ∧
    (∀ A : JsObj, (promptForMissing lib session cliOptions S heap).result = .ok A →
      (promptForMissing lib session cliOptions S heap).asked
        = missingQuestions cliOptions (resolveEntries heap (objectEntries S))) ∧
    ((∀ (a : JsObj) (n : String) (m : PromptVal), ∃ t, session a n m = .ok t) →
      ∃ A, (promptForMissing lib session cliOptions S heap).result = .ok A ∧
        (promptForMissing lib session cliOptions S heap).asked
          = missingQuestions cliOptions (resolveEntries heap (objectEntries S))) ∧
    (objectEntries S).Perm S ∧
    (objectEntries S).filter (fun e => !isArrayIndex e.1)
      = S.filter (fun e => !isArrayIndex e.1) ∧
    ((∀ k ∈ S.map Prod.fst, isArrayIndex k = false) → objectEntries S = S) := by
  obtain ⟨hres, hasked, hcalls⟩ := promptForMissing_run lib session cliOptions S heap hobjs
  have h1 := entries_keys_nodup S heap hkeys
  have h2 := entries_keys_ordinary S heap hord
  have h3 : ∀ k ∈ (resolveEntries heap (objectEntries S)).map Prod.fst,
      JsObj.has [] k = false := fun _ _ => rfl
  refine ⟨rfl, ?_, ?_, ?_, ?_, ?_, objectEntries_perm S, entries_of_index_sorted S,
    objectEntries_of_no_index S⟩
  · rw [hcalls]
    simp only [resolveEntries, List.map_cons, List.map_nil, List.map_map, List.cons.injEq,
      and_true]
    apply List.map_congr_left
    intro e _
    simp only [Function.comp_apply, annotate_name, annotate_message]
  · intro e he answers
    have hnd : ((objectEntries S).map Prod.snd).Nodup :=
      ((objectEntries_perm S).map Prod.snd).nodup_iff.mpr hobjs
    have hmem : e ∈ objectEntries S := (objectEntries_perm S).mem_iff.mpr he
    have hheap : (promptForMissing lib session cliOptions S heap).heap e.2
        = (annotate cliOptions (e.1, heap e.2)).2 :=
      promptLoop_distinct cliOptions (objectEntries S) heap hnd e hmem
    rw [hheap, annotate_when]
    by_cases hc : (cliOptions.get e.1).truthy = true <;> simp [evalWhen, whenBody, hc]
  · rw [hasked]
    exact run_asked_initial lib session cliOptions _ [] h1 h2 h3
  · intro A h
    rw [hres] at h
    rw [hasked]
    exact run_asked_of_ok lib session cliOptions _ [] A h1 h2 h3 h
  · intro hsession
    obtain ⟨A, hA⟩ := run_returns lib session cliOptions hsession _ [] h1 h2 h3
    refine ⟨A, hres.trans hA, ?_⟩
    rw [hasked]
    exact run_asked_of_ok lib session cliOptions _ [] A h1 h2 h3 hA

/-- C5 amended, at a concrete resolution: only the description is asked. -/
theorem prompts_only_missing_witness :
    (promptForMissing keyOnly (typing "typed") [("name", .str "Moon"), ("description", .str "")]
        nftPrompts nftHeap).asked
      = [("description", .val (.str "Enter a description for your new NFT: "))] :=
  (prompts_only_missing keyOnly (typing "typed") [("name", .str "Moon"), ("description", .str "")]
    nftPrompts nftHeap (by decide) (by decide) (by decide)).2.2.2.2.1
    [("name", .str "Moon"), ("description", .str "typed")] rfl

theorem pick_owner (options : JsObj) :
    pick options ["owner"]
      = if options.has "owner" = true then [("owner", options.get "owner")] else [] := by
  have hin : options.hasIn "owner" = options.has "owner" := by
    unfold JsObj.hasIn JsObj.has
    have : decide ("owner" ∈ objectPrototypeNames) = false := by decide
    rw [this, Bool.or_false]
  by_cases h : options.has "owner" = true <;> simp [pick, List.filterMap, hin, h]

theorem assign_owner (target : JsObj) (v : JsVal) :
    assign target [("owner", v)] = setProp target "owner" v := by
  unfold assign
  rw [objectEntries_of_no_index _ (by
    intro k hk
    simp only [List.map_cons, List.map_nil, List.mem_singleton] at hk
    subst hk
    decide)]
  rfl

theorem createNFT_answers (lib : PathOps) (session : Session) (imagePath : String)
    (options A : JsObj) (h : (createNFT lib session imagePath options).answers = .ok A) :
    ∃ A0, (promptForMissing lib session options nftPrompts nftHeap).result = .ok A0 ∧
      A = assign A0 (pick options ["owner"]) := by
  unfold createNFT at h
  cases hr : (promptForMissing lib session options nftPrompts nftHeap).result with
  | error err =>
    simp only [hr] at h
    cases h
  | ok A0 =>
    simp only [hr] at h
    cases h
    exact ⟨A0, rfl, rfl⟩

/-- C4, as stated, fails: the flag `--creation-info` puts the key `creationInfo`
into the CLI options; it is not declared in the spec map and is absent from the
answer set assembled by `createNFT`. -/
theorem creationInfo_not_passed_through :
    (createNFT keyOnly (typing "typed") "cat.png" [("creationInfo", .bool true)]).answers
        = .ok [("name", .str "typed"), ("description", .str "typed")] ∧
    JsObj.has [("name", .str "typed"), ("description", .str "typed")] "creationInfo" = false :=
  ⟨rfl, rfl⟩

/-- C4, amended: the key `owner` of the CLI options, when present, is in the
answer set assembled by `createNFT` with its value unchanged, whatever the
session answered; only `name` and `description` are ever asked; no other key
than these three is in the answer set; and an answer set is assembled whenever
the session answers every question. -/
theorem owner_passes_through (lib : PathOps) (session : Session) (imagePath : String)
    (options : JsObj) :
    (∀ A : JsObj, (createNFT lib session imagePath options).answers = .ok A →
      (options.has "owner" = true →
        A.has "owner" = true ∧ A.get "owner" = options.get "owner") ∧
      (∀ k : String, k ≠ "owner" → k ≠ "name" → k ≠ "description" → A.has k = false)) ∧
    (∀ q ∈ (createNFT lib session imagePath options).asked,
      q.1 = "name" ∨ q.1 = "description") ∧
    ((∀ (a : JsObj) (n : String) (m : PromptVal), ∃ t, session a n m = .ok t) →
      ∃ A, (createNFT lib session imagePath options).answers = .ok A) := by
  have hobjs : (nftPrompts.map Prod.snd).Nodup := by decide
  have hkeys : (nftPrompts.map Prod.fst).Nodup := by decide
  have hord : ∀ k ∈ nftPrompts.map Prod.fst, ordinaryName k = true := by decide
  obtain ⟨hres, hasked, _⟩ := promptForMissing_run lib session options nftPrompts nftHeap hobjs
  have h1 := entries_keys_nodup nftPrompts nftHeap hkeys
  have h2 := entries_keys_ordinary nftPrompts nftHeap hord
  have h3 : ∀ k ∈ (resolveEntries nftHeap (objectEntries nftPrompts)).map Prod.fst,
      JsObj.has [] k = false := fun _ _ => rfl
  refine ⟨?_, ?_, ?_⟩
  · intro A h
    obtain ⟨A0, h0, hA⟩ := createNFT_answers lib session imagePath options A h
    rw [hres] at h0
    constructor
    · intro ho
      rw [hA, pick_owner, if_pos ho, assign_owner]
      exact ⟨hasProp_setProp_same _ _ _, getProp_setProp_same _ _ _ _⟩
    · intro k hk1 hk2 hk3
      have hk : k ∉ (resolveEntries nftHeap (objectEntries nftPrompts)).map Prod.fst := by
        rw [entries_keys_mem]
        simp [nftPrompts, hk2, hk3]
      have hA0 : A0.has k = false :=
        run_has_other lib session options _ [] A0 h1 h2 h3 h0 k hk
      rw [hA, pick_owner]
      by_cases ho : options.has "owner" = true
      · rw [if_pos ho, assign_owner]
        have : JsObj.has (setProp A0 "owner" (options.get "owner")) k = A0.has k :=
          hasProp_setProp_ne _ _ _ _ (Ne.symm hk1)
        exact this.trans hA0
      · rw [if_neg ho]
        exact hA0
  · intro q hq
    have hc : (createNFT lib session imagePath options).asked
        = (promptForMissing lib session options nftPrompts nftHeap).asked := by
      unfold createNFT
      cases hr : (promptForMissing lib session options nftPrompts nftHeap).result <;>
        simp only [hr]
    rw [hc, hasked] at hq
    have hsub := (run_asked_initial lib session options _ [] h1 h2 h3).subset hq
    simp only [missingQuestions, List.mem_map, List.mem_filter] at hsub
    obtain ⟨e, ⟨he, _⟩, rfl⟩ := hsub
    have hek : e.1 ∈ nftPrompts.map Prod.fst :=
      (entries_keys_mem nftPrompts nftHeap e.1).mp (List.mem_map_of_mem Prod.fst he)
    simp only [nftPrompts, List.map_cons, List.map_nil, List.mem_cons, List.mem_singleton,
      List.not_mem_nil, or_false] at hek
    exact hek
  · intro hsession
    obtain ⟨A0, hA0⟩ := run_returns lib session options hsession _ [] h1 h2 h3
    refine ⟨assign A0 (pick options ["owner"]), ?_⟩
    unfold createNFT
    have hr : (promptForMissing lib session options nftPrompts nftHeap).result = .ok A0 :=
      hres.trans hA0
    simp only [hr]

/-- C4 amended, at the example of the specification: `owner` is handed through. -/
theorem owner_passes_through_witness :
    (createNFT keyOnly (typing "typed") "cat.png" [("owner", .str "0xABC")]).answers
        = .ok [("name", .str "typed"), ("description", .str "typed"), ("owner", .str "0xABC")] ∧
    JsObj.get [("name", .str "typed"), ("description", .str "typed"), ("owner", .str "0xABC")]
        "owner" = .str "0xABC" :=
  ⟨rfl, (((owner_passes_through keyOnly (typing "typed") "cat.png" [("owner", .str "0xABC")]).1
    [("name", .str "typed"), ("description", .str "typed"), ("owner", .str "0xABC")] rfl).1
    rfl).2⟩

/-- C9, as stated, fails: after a resolution the prompt object under the key
`name` carries the properties `name` and `when` that it did not have before. -/
theorem prompts_are_mutated :
    (promptForMissing keyOnly (typing "typed") [] nftPrompts nftHeap).heap 0
      = [("message", .val (.str "Enter a name for your new NFT: ")),
         ("name", .val (.str "name")), ("when", .whenFn [] "name")] ∧
    (promptForMissing keyOnly (typing "typed") [] nftPrompts nftHeap).heap 0 ≠ nftHeap 0 := by
  constructor
  · rfl
  · decide

/-- C9, amended: a resolution leaves every property other than `name` and `when`
of every prompt object as it was (the `message` among them) and does not touch
an object that is no entry of the spec map. On every entry's object it writes
`name` and `when`: with distinct objects, the entry's own key and the skip
predicate for that key over the CLI options; in general, the key and predicate
of one of the entries that hold the object. -/
theorem prompts_frame (lib : PathOps) (session : Session) (cliOptions : JsObj)
    (S : PromptMap) (heap : Heap) :
    (∀ (r : Ref) (f : String), f ≠ "name" → f ≠ "when" →
      ((promptForMissing lib session cliOptions S heap).heap r).get f = (heap r).get f ∧
      hasProp ((promptForMissing lib session cliOptions S heap).heap r) f = hasProp (heap r) f) ∧
    (∀ r : Ref, ((promptForMissing lib session cliOptions S heap).heap r).get "message"
      = (heap r).get "message") ∧
    (∀ r : Ref, r ∉ S.map Prod.snd →
      (promptForMissing lib session cliOptions S heap).heap r = heap r) ∧
    (∀ e ∈ S, ∃ k, (k, e.2) ∈ S ∧
      ((promptForMissing lib session cliOptions S heap).heap e.2).get "name" = .val (.str k) ∧
      ((promptForMissing lib session cliOptions S heap).heap e.2).get "when"
        = .whenFn cliOptions k) ∧
    ((S.map Prod.snd).Nodup → ∀ e ∈ S,
      ((promptForMissing lib session cliOptions S heap).heap e.2).get "name"
        = .val (.str e.1) ∧
      ((promptForMissing lib session cliOptions S heap).heap e.2).get "when"
        = .whenFn cliOptions e.1) := by
  have hheap : (promptForMissing lib session cliOptions S heap).heap
      = promptLoop cliOptions (objectEntries S) heap := rfl
  rw [hheap]
  refine ⟨?_, ?_, ?_, ?_, ?_⟩
  · intro r f h1 h2
    exact promptLoop_frame cliOptions _ heap r f h1 h2
  · intro r
    exact (promptLoop_frame cliOptions _ heap r "message" (by decide) (by decide)).1
  · intro r hr
    apply promptLoop_untouched
    intro h
    exact hr (((objectEntries_perm S).map Prod.snd).mem_iff.mp h)
  · intro e he
    have hmem : e.2 ∈ (objectEntries S).map Prod.snd :=
      ((objectEntries_perm S).map Prod.snd).mem_iff.mpr (List.mem_map_of_mem Prod.snd he)
    obtain ⟨k, hk, h1, h2⟩ := promptLoop_some_key cliOptions _ heap e.2 hmem
    exact ⟨k, (objectEntries_perm S).mem_iff.mp hk, h1, h2⟩
  · intro hobjs e he
    have hnd : ((objectEntries S).map Prod.snd).Nodup :=
      ((objectEntries_perm S).map Prod.snd).nodup_iff.mpr hobjs
    have hmem : e ∈ objectEntries S := (objectEntries_perm S).mem_iff.mpr he
    rw [promptLoop_distinct cliOptions (objectEntries S) heap hnd e hmem]
    exact ⟨annotate_name _ _, annotate_when _ _⟩

/-- C9 amended, at the spec map of `createNFT`: the object under `description`
keeps its message and gets its own key and predicate. -/
theorem prompts_frame_witness :
    ((promptForMissing keyOnly (typing "typed") [("name", .str "Moon")] nftPrompts nftHeap).heap
        1).get "message" = .val (.str "Enter a description for your new NFT: ") ∧
    ((promptForMissing keyOnly (typing "typed") [("name", .str "Moon")] nftPrompts nftHeap).heap
        1).get "name" = .val (.str "description") :=
  ⟨(prompts_frame keyOnly (typing "typed") [("name", .str "Moon")] nftPrompts nftHeap).2.1 1,
   ((prompts_frame keyOnly (typing "typed") [("name", .str "Moon")] nftPrompts nftHeap).2.2.2.2
      (by decide) ("description", 1) (by decide)).1⟩

end Minty
